import Mathlib

/-!
A verification development for the Quark compiler front end
(`src/lexer.rs` and `src/parser.rs`): a tokenizer and a recursive-descent
parser with inline static type checking of variable declarations.

Representation choices of the shallow embedding:

* The Rust `Lexer` owns the full `input : Vec<char>` and an index
  `position`; every scanning function only ever consults
  `input[position..]` (via `peek`, `advance`, and the two
  `input.get(position + 1)` lookaheads).  The embedding therefore passes
  the remaining suffix as a `List Char` together with the absolute
  `position : Nat` (the latter is observable through `LexError.position`),
  which makes almost every scanning function structurally recursive.
  `Lexer::peek` is the `head?` of the suffix and `Lexer::advance` is
  "drop one, add one to `position`".  The `line`/`column` fields of the
  Rust `Lexer` are written by `advance` but never read anywhere in the
  repository, so they are omitted from the state.

* The Rust `Parser` owns `tokens : Vec<Token>` with an index `position`;
  the embedding passes the remaining suffix `List Token`.  Its
  `current_line` / `current_column` fields are set to `1` in
  `Parser::new` and never assigned afterwards; every error site reads
  them.  They are threaded through as ordinary arguments `l c`.

* Rust `i64` parsing is modelled exactly (sign, digits, range check on
  two's-complement 64-bit bounds); `f64` values are modelled as exact
  decimal rationals, see `rust_parse_f64`.
-/

namespace Quark

/-- Decidable equality of `Except` results, used to evaluate the embedded
functions on concrete inputs. -/
instance {ε α : Type} [DecidableEq ε] [DecidableEq α] : DecidableEq (Except ε α) := fun a b =>
  match a, b with
  | .error x, .error y =>
    if h : x = y then .isTrue (by rw [h]) else .isFalse (by simp [h])
  | .ok x, .ok y =>
    if h : x = y then .isTrue (by rw [h]) else .isFalse (by simp [h])
  | .error _, .ok _ => .isFalse (by simp)
  | .ok _, .error _ => .isFalse (by simp)

/-! ## Character classes from the Rust standard library -/

/-- Rust `char::is_whitespace`: the Unicode `White_Space` property
(25 code points), transcribed in full. -/
def rust_is_whitespace (c : Char) : Bool :=
  let n := c.toNat
  (9 ≤ n && n ≤ 13) || n == 32 || n == 133 || n == 160 || n == 0x1680 ||
  (0x2000 ≤ n && n ≤ 0x200A) || n == 0x2028 || n == 0x2029 || n == 0x202F ||
  n == 0x205F || n == 0x3000

/-- Rust `char::is_alphabetic`: the Unicode `Alphabetic` property.  The
full Unicode table is far too large to transcribe; this embedding is exact
on the ASCII range and on the Cyrillic block U+0400–U+045F (whose code
points are all letters), which are the only non-ASCII characters any
theorem below applies it to.  Other characters are mapped to `false`. -/
def rust_is_alphabetic (c : Char) : Bool :=
  let n := c.toNat
  (65 ≤ n && n ≤ 90) || (97 ≤ n && n ≤ 122) || (0x400 ≤ n && n ≤ 0x45F)

/-- Rust `char::is_alphanumeric` = `Alphabetic` or Unicode numeric
(`Nd`/`Nl`/`No`).  Exact on the same ranges as `rust_is_alphabetic`
plus the ASCII digits; non-ASCII numeric characters are unmodelled
(nothing below applies the function to them). -/
def rust_is_alphanumeric (c : Char) : Bool :=
  rust_is_alphabetic c || c.isDigit

/-! ## Lexer data model (lexer.rs:1-29) -/

/-- `Token` (lexer.rs:2-23). -/
inductive Token
  | Ident (s : String)
  | StringLiteral (s : String)
  | NumberLiteral (s : String)
  | LParen
  | RParen
  | Semicolon
  | Equals
  | EOF
  | Illegal (c : Char)
  | StringType
  | IntegerType
  | FloatType
  | BooleanType
  | True
  | False
  deriving DecidableEq

/-- `LexError` (lexer.rs:25-29). -/
structure LexError where
  message : String
  position : Nat
  deriving DecidableEq

/-! ## Lexer scanning functions (lexer.rs:66-188) -/

/-- `Lexer::skip_whitespace` (lexer.rs:66-74): advance while the current
character is whitespace.  Returns the remaining suffix and position. -/
def skip_whitespace : List Char → Nat → List Char × Nat
  | c :: t, pos =>
    if rust_is_whitespace c then skip_whitespace t (pos + 1) else (c :: t, pos)
  | [], pos => ([], pos)

/-- The inner `while` loop of `Lexer::skip_comments` (lexer.rs:83-88):
advance until the current character is a newline (left unconsumed) or the
input ends. -/
def skip_to_newline : List Char → Nat → List Char × Nat
  | c :: t, pos =>
    if c = '\n' then (c :: t, pos) else skip_to_newline t (pos + 1)
  | [], pos => ([], pos)

theorem skip_whitespace_length_le :
    ∀ rem pos, (skip_whitespace rem pos).1.length ≤ rem.length
  | [], _ => le_refl _
  | c :: t, pos => by
    simp only [skip_whitespace]
    split
    · exact le_trans (skip_whitespace_length_le t (pos + 1)) (Nat.le_succ _)
    · exact le_refl _

theorem skip_to_newline_length_le :
    ∀ rem pos, (skip_to_newline rem pos).1.length ≤ rem.length
  | [], _ => le_refl _
  | c :: t, pos => by
    simp only [skip_to_newline]
    split
    · exact le_refl _
    · exact le_trans (skip_to_newline_length_le t (pos + 1)) (Nat.le_succ _)

/-- `Lexer::skip_comments` (lexer.rs:76-96): while the current two
characters are `//`, skip to the end of the line, skip whitespace after
the comment, and repeat. -/
def skip_comments (rem : List Char) (pos : Nat) : List Char × Nat :=
  match rem with
  | '/' :: '/' :: t =>
    let p1 := skip_to_newline t (pos + 2)
    let p2 := skip_whitespace p1.1 p1.2
    skip_comments p2.1 p2.2
  | _ => (rem, pos)
termination_by rem.length
decreasing_by
  calc (skip_whitespace (skip_to_newline t (pos + 2)).1
          (skip_to_newline t (pos + 2)).2).1.length
      ≤ (skip_to_newline t (pos + 2)).1.length := skip_whitespace_length_le _ _
    _ ≤ t.length := skip_to_newline_length_le t (pos + 2)
    _ < ('/' :: '/' :: t).length := by simp; omega

/-- `Lexer::read_ident` (lexer.rs:98-109): consume alphanumeric and
underscore characters greedily, accumulating them. -/
def read_ident : List Char → Nat → String → String × List Char × Nat
  | c :: t, pos, acc =>
    if rust_is_alphanumeric c || c = '_' then read_ident t (pos + 1) (acc.push c)
    else (acc, c :: t, pos)
  | [], pos, acc => (acc, [], pos)

/-- `Lexer::read_number` (lexer.rs:111-137): consume digits greedily;
accept at most one decimal point, and only when the character immediately
after it is a digit (otherwise the dot is left unconsumed). -/
def read_number : List Char → Nat → Bool → String → String × List Char × Nat
  | c :: t, pos, hasDot, acc =>
    if c.isDigit then read_number t (pos + 1) hasDot (acc.push c)
    else if c = '.' && !hasDot then
      match t with
      | d :: _ =>
        if d.isDigit then read_number t (pos + 1) true (acc.push c)
        else (acc, c :: t, pos)
      | [] => (acc, c :: t, pos)
    else (acc, c :: t, pos)
  | [], pos, _, acc => (acc, [], pos)

/-- The `while` loop of `Lexer::read_string` (lexer.rs:143-187), entered
after the opening quote has been skipped. -/
def read_string_loop : List Char → Nat → String → Except LexError (String × List Char × Nat)
  | '"' :: t, pos, acc => .ok (acc, t, pos + 1)
  | '\\' :: t, pos, acc =>
    match t with
    | e :: t' =>
      if e = 'n' then read_string_loop t' (pos + 2) (acc.push '\n')
      else if e = 't' then read_string_loop t' (pos + 2) (acc.push '\t')
      else if e = 'r' then read_string_loop t' (pos + 2) (acc.push '\r')
      else if e = '"' then read_string_loop t' (pos + 2) (acc.push '"')
      else if e = '\\' then read_string_loop t' (pos + 2) (acc.push '\\')
      else .error ⟨"Unknown escape sequence: \\" ++ e.toString, pos + 1⟩
    | [] => .error ⟨"Incomplete escape sequence", pos + 1⟩
  | '\n' :: _, pos, _ => .error ⟨"Unclosed string", pos⟩
  | c :: t, pos, acc => read_string_loop t (pos + 1) (acc.push c)
  | [], pos, _ => .error ⟨"Unterminated string constant", pos⟩

/-- `Lexer::read_string` (lexer.rs:139-188): skip the opening quote
(`self.advance()`), then scan the body.  It is only ever invoked when the
current character is the opening quote, so the initial `advance` is
embedded as dropping that character. -/
def read_string (input : List Char) (pos : Nat) : Except LexError (String × List Char × Nat) :=
  read_string_loop input.tail (pos + 1) ""

/-- The keyword table of `Lexer::next_token` (lexer.rs:222-230). -/
def keyword_or_ident (s : String) : Token :=
  if s = "String" then .StringType
  else if s = "Integer" then .IntegerType
  else if s = "Float" then .FloatType
  else if s = "Boolean" then .BooleanType
  else if s = "true" then .True
  else if s = "false" then .False
  else .Ident s

/-- `Lexer::next_token` (lexer.rs:190-247): skip whitespace and comments,
then classify the current character in the source's priority order —
punctuation, quote, ASCII digit, alphabetic-or-underscore, other ASCII
(an `Illegal` token), other non-ASCII (a hard lexical error). -/
def next_token (rem : List Char) (pos : Nat) : Except LexError (Token × List Char × Nat) :=
  let w := skip_whitespace rem pos
  let s := skip_comments w.1 w.2
  match s.1 with
  | [] => .ok (.EOF, [], s.2)
  | c :: t =>
    if c = '(' then .ok (.LParen, t, s.2 + 1)
    else if c = ')' then .ok (.RParen, t, s.2 + 1)
    else if c = ';' then .ok (.Semicolon, t, s.2 + 1)
    else if c = '=' then .ok (.Equals, t, s.2 + 1)
    else if c = '"' then
      match read_string (c :: t) s.2 with
      | .ok (str, rem', pos') => .ok (.StringLiteral str, rem', pos')
      | .error e => .error e
    else if c.isDigit then
      let r := read_number (c :: t) s.2 false ""
      .ok (.NumberLiteral r.1, r.2.1, r.2.2)
    else if rust_is_alphabetic c || c = '_' then
      let r := read_ident (c :: t) s.2 ""
      .ok (keyword_or_ident r.1, r.2.1, r.2.2)
    else if c.toNat ≤ 127 then .ok (.Illegal c, t, s.2 + 1)
    else .error ⟨"Invalid character: '" ++ c.toString ++ "'", s.2⟩

theorem skip_comments_length_le (rem : List Char) (pos : Nat) :
    (skip_comments rem pos).1.length ≤ rem.length := by
  induction rem, pos using skip_comments.induct with
  | case1 pos t p1 p2 ih =>
    rw [skip_comments]
    refine le_trans ih (le_trans (skip_whitespace_length_le _ _) ?_)
    exact le_trans (skip_to_newline_length_le t (pos + 2))
      (by simp only [List.length_cons]; omega)
  | case2 rem pos h =>
    rw [skip_comments.eq_def]
    split
    · next t => exact ((h t rfl).elim)
    · exact le_refl _

theorem read_string_loop_length_le :
    ∀ input pos acc str rem' pos',
      read_string_loop input pos acc = .ok (str, rem', pos') → rem'.length ≤ input.length := by
  intro input pos acc
  induction input, pos, acc using read_string_loop.induct with
  | case1 t pos acc =>
    intro str rem' pos' h
    simp [read_string_loop] at h
    obtain ⟨-, h2, -⟩ := h
    subst h2
    simp only [List.length_cons]
    omega
  | case2 pos acc tail ih =>
    intro str rem' pos' h
    simp [read_string_loop] at h
    exact le_trans (ih _ _ _ h) (by simp only [List.length_cons]; omega)
  | case3 pos acc tail h1 ih =>
    intro str rem' pos' h
    simp [read_string_loop] at h
    exact le_trans (ih _ _ _ h) (by simp only [List.length_cons]; omega)
  | case4 pos acc tail h1 h2 ih =>
    intro str rem' pos' h
    simp [read_string_loop] at h
    exact le_trans (ih _ _ _ h) (by simp only [List.length_cons]; omega)
  | case5 pos acc tail h1 h2 h3 ih =>
    intro str rem' pos' h
    simp [read_string_loop] at h
    exact le_trans (ih _ _ _ h) (by simp only [List.length_cons]; omega)
  | case6 pos acc tail h1 h2 h3 h4 ih =>
    intro str rem' pos' h
    simp [read_string_loop] at h
    exact le_trans (ih _ _ _ h) (by simp only [List.length_cons]; omega)
  | case7 pos acc d tail h1 h2 h3 h4 h5 =>
    intro str rem' pos' h
    simp [read_string_loop, h1, h2, h3, h4, h5] at h
  | case8 pos acc =>
    intro str rem' pos' h
    simp [read_string_loop] at h
  | case9 tail pos x =>
    intro str rem' pos' h
    simp [read_string_loop] at h
  | case10 c t pos acc h1 h2 h3 ih =>
    intro str rem' pos' h
    simp [read_string_loop, h1, h2, h3] at h
    exact le_trans (ih _ _ _ h) (by simp only [List.length_cons]; omega)
  | case11 pos x =>
    intro str rem' pos' h
    simp [read_string_loop] at h

theorem read_number_length_le :
    ∀ input pos hasDot acc, (read_number input pos hasDot acc).2.1.length ≤ input.length := by
  intro input pos hasDot acc
  induction input, pos, hasDot, acc using read_number.induct with
  | case1 c t pos hasDot acc h1 ih =>
    simp only [read_number, h1, if_true]
    exact le_trans ih (by simp only [List.length_cons]; omega)
  | case2 c pos hasDot acc h1 h2 d tail h3 ih =>
    have hstep : read_number (c :: d :: tail) pos hasDot acc =
        read_number (d :: tail) (pos + 1) true (acc.push c) := by
      rw [read_number.eq_def]
      simp [h1, h2, h3]
    rw [hstep]
    refine le_trans ih ?_
    simp only [List.length_cons]
    omega
  | case3 c pos hasDot acc h1 h2 d tail h3 =>
    simp [read_number, h1, h2, h3]
  | case4 c pos hasDot acc h1 h2 =>
    simp [read_number, h1, h2]
  | case5 c t pos hasDot acc h1 h2 =>
    simp [read_number, h1, h2]
  | case6 pos x acc =>
    simp [read_number]

theorem read_ident_length_le :
    ∀ input pos acc, (read_ident input pos acc).2.1.length ≤ input.length := by
  intro input pos acc
  induction input, pos, acc using read_ident.induct with
  | case1 c t pos acc h1 ih =>
    simp only [read_ident, h1, if_true]
    exact le_trans ih (by simp only [List.length_cons]; omega)
  | case2 c t pos acc h1 =>
    simp [read_ident, h1]
  | case3 pos acc =>
    simp [read_ident]

theorem next_token_progress :
    ∀ rem pos tok rem' pos', next_token rem pos = .ok (tok, rem', pos') →
      tok ≠ .EOF → rem'.length < rem.length := by
  intro rem pos tok rem' pos' h hne
  have hchain :
      (skip_comments (skip_whitespace rem pos).1 (skip_whitespace rem pos).2).1.length ≤
        rem.length :=
    le_trans (skip_comments_length_le _ _) (skip_whitespace_length_le _ _)
  simp only [next_token] at h
  set s := skip_comments (skip_whitespace rem pos).1 (skip_whitespace rem pos).2 with hs
  clear_value s
  obtain ⟨s1, s2⟩ := s
  cases s1 with
  | nil =>
    simp only [] at h
    cases h
    exact absurd rfl hne
  | cons c t =>
    simp only [List.length_cons] at hchain
    simp only [] at h
    split at h
    · cases h; omega
    · split at h
      · cases h; omega
      · split at h
        · cases h; omega
        · split at h
          · cases h; omega
          · split at h
            · -- string literal branch
              split at h
              · next str0 rem0 pos0 hrs =>
                cases h
                have : rem'.length ≤ t.length := by
                  unfold read_string at hrs
                  simp only [List.tail_cons] at hrs
                  exact read_string_loop_length_le _ _ _ _ _ _ hrs
                omega
              · cases h
            · split at h
              · -- number branch
                next hdig =>
                cases h
                have : (read_number (c :: t) s2 false "").2.1.length ≤ t.length := by
                  rw [read_number.eq_def]
                  simp only [hdig, if_true]
                  exact read_number_length_le _ _ _ _
                omega
              · split at h
                · -- identifier branch
                  next halpha =>
                  cases h
                  have hguard : (rust_is_alphanumeric c || c = '_') = true := by
                    rcases Bool.or_eq_true_iff.mp halpha with h1 | h1
                    · exact Bool.or_eq_true_iff.mpr (Or.inl
                        (by unfold rust_is_alphanumeric; exact Bool.or_eq_true_iff.mpr (Or.inl h1)))
                    · exact Bool.or_eq_true_iff.mpr (Or.inr h1)
                  have : (read_ident (c :: t) s2 "").2.1.length ≤ t.length := by
                    rw [read_ident.eq_def]
                    simp only [hguard, if_true]
                    exact read_ident_length_le _ _ _
                  omega
                · split at h
                  · cases h; omega
                  · cases h

/-- `Lexer::tokenize` (lexer.rs:249-260): call `next_token` repeatedly,
pushing each token, until the end-of-input token (pushed as well) or a
lexical error. -/
def tokenize_loop (rem : List Char) (pos : Nat) : Except LexError (List Token) :=
  match h : next_token rem pos with
  | .error e => .error e
  | .ok (tok, rem', pos') =>
    if heof : tok = .EOF then .ok [tok]
    else
      match tokenize_loop rem' pos' with
      | .error e => .error e
      | .ok toks => .ok (tok :: toks)
termination_by rem.length
decreasing_by exact next_token_progress rem pos tok rem' pos' h heof

/-- Plain unfolding equation for `tokenize_loop` (the definition uses a
dependent match for its termination proof). -/
theorem tokenize_loop_eq (rem : List Char) (pos : Nat) :
    tokenize_loop rem pos =
      match next_token rem pos with
      | .error e => .error e
      | .ok (tok, rem', pos') =>
        if tok = .EOF then .ok [tok]
        else
          match tokenize_loop rem' pos' with
          | .error e => .error e
          | .ok toks => .ok (tok :: toks) := by
  rw [tokenize_loop]
  cases hx : next_token rem pos with
  | error e => simp
  | ok triple =>
    obtain ⟨tok, rem', pos'⟩ := triple
    by_cases heof : tok = .EOF <;> simp [heof]

/-- `Lexer::new` followed by `Lexer::tokenize`: tokenize a source text
from position 0. -/
def tokenize (input : String) : Except LexError (List Token) :=
  tokenize_loop input.data 0

/-! ## Parser data model (parser.rs:1-65) -/

/-- `VarType` (parser.rs:41-47). -/
inductive VarType
  | String
  | Integer
  | Float
  | Boolean
  deriving DecidableEq

/-- `Value` (parser.rs:23-29).  The Rust `Float` variant holds an `f64`;
it is modelled as the exact decimal rational denoted by the literal text
(see `rust_parse_f64`): no theorem below observes the payload beyond the
constructor tag and its debug rendering on short literals, where the two
agree. -/
inductive Value
  | String (s : String)
  | Integer (i : Int)
  | Float (q : Rat)
  | Boolean (b : Bool)
  deriving DecidableEq

/-- `BinOp` (parser.rs:18-21). -/
inductive BinOp
  | Add
  deriving DecidableEq

/-- `Expr` (parser.rs:3-16). -/
inductive Expr
  | Call (name : String) (args : List Expr)
  | Variable (name : String)
  | Literal (v : Value)
  | BinaryOp (left : Expr) (op : BinOp) (right : Expr)

/-- `Stmt` (parser.rs:31-39). -/
inductive Stmt
  | Declaration (var_type : VarType) (name : String) (value : Value)
  | Expression (e : Expr)

/-- `Program` (parser.rs:49-52). -/
structure Program where
  statements : List Stmt

/-- `ParseError` (parser.rs:54-59). -/
structure ParseError where
  message : String
  line : Nat
  column : Nat
  deriving DecidableEq

/-! ## Debug formatting (`{:?}`) used in parser error messages -/

/-- `derive(Debug)` rendering of a string payload: quoted, with the
escapes relevant here (`\"`, `\\`, `\n`, `\t`, `\r`); Rust additionally
escapes other control and non-printable characters, which no theorem
below exercises. -/
def string_debug_fmt (s : String) : String :=
  "\"" ++ String.join (s.data.map fun c =>
    if c = '"' then "\\\""
    else if c = '\\' then "\\\\"
    else if c = '\n' then "\\n"
    else if c = '\t' then "\\t"
    else if c = '\r' then "\\r"
    else c.toString) ++ "\""

/-- `derive(Debug)` rendering of a char payload, with the same escape
coverage as `string_debug_fmt`. -/
def char_debug_fmt (c : Char) : String :=
  "'" ++ (if c = '\'' then "\\'"
    else if c = '\\' then "\\\\"
    else if c = '\n' then "\\n"
    else if c = '\t' then "\\t"
    else if c = '\r' then "\\r"
    else c.toString) ++ "'"

/-- `derive(Debug)` rendering of `Token` (used by `Parser::expect` and
the unexpected-token error). -/
def Token.debugFmt : Token → String
  | .Ident s => "Ident(" ++ string_debug_fmt s ++ ")"
  | .StringLiteral s => "StringLiteral(" ++ string_debug_fmt s ++ ")"
  | .NumberLiteral s => "NumberLiteral(" ++ string_debug_fmt s ++ ")"
  | .LParen => "LParen"
  | .RParen => "RParen"
  | .Semicolon => "Semicolon"
  | .Equals => "Equals"
  | .EOF => "EOF"
  | .Illegal c => "Illegal(" ++ char_debug_fmt c ++ ")"
  | .StringType => "StringType"
  | .IntegerType => "IntegerType"
  | .FloatType => "FloatType"
  | .BooleanType => "BooleanType"
  | .True => "True"
  | .False => "False"

/-- Split `n` into `(k, m)` with `n = p ^ k * m` and `p` not dividing `m`
(for `1 < p`, `0 < n`). -/
def pow_count (p n : Nat) : Nat × Nat :=
  if h : 1 < p ∧ n ≠ 0 ∧ n % p = 0 then
    let r := pow_count p (n / p)
    (r.1 + 1, r.2)
  else (0, n)
termination_by n
decreasing_by exact Nat.div_lt_self (Nat.pos_of_ne_zero h.2.1) h.1

/-- Left-pad a digit string with zeros to width `e`. -/
def pad_zeros (e : Nat) (s : String) : String :=
  String.mk (List.replicate (e - s.length) '0') ++ s

/-- `derive(Debug)` rendering of the `f64` payload of `Value::Float`.
Rust prints the shortest decimal that round-trips through the `f64`; for
the exact-decimal rationals this development constructs (short literal
texts) that is the plain decimal expansion rendered here.  Other
rationals fall back to a fraction rendering; no theorem evaluates this
function on them. -/
def float_debug_fmt (q : Rat) : String :=
  let c2 := pow_count 2 q.den
  let c5 := pow_count 5 c2.2
  if c5.2 = 1 then
    let e := max c2.1 c5.1
    let m := (q.num.natAbs * (10 ^ e / q.den))
    let sign := if q.num < 0 then "-" else ""
    if e = 0 then sign ++ toString m ++ ".0"
    else sign ++ toString (m / 10 ^ e) ++ "." ++ pad_zeros e (toString (m % 10 ^ e))
  else toString q.num ++ "/" ++ toString q.den

/-- `derive(Debug)` rendering of `Value` (used in the type-mismatch
error of `Parser::parse_declaration`). -/
def value_debug_fmt : Value → String
  | .String s => "String(" ++ string_debug_fmt s ++ ")"
  | .Integer i => "Integer(" ++ toString i ++ ")"
  | .Float q => "Float(" ++ float_debug_fmt q ++ ")"
  | .Boolean b => "Boolean(" ++ (if b then "true" else "false") ++ ")"

/-- `derive(Debug)` rendering of `VarType`. -/
def vartype_debug_fmt : VarType → String
  | .String => "String"
  | .Integer => "Integer"
  | .Float => "Float"
  | .Boolean => "Boolean"

/-! ## Numeric literal conversion (`str::parse` in parse_value) -/

/-- Value of a list of ASCII digits. -/
def digits_to_nat (ds : List Char) : Nat :=
  ds.foldl (fun a c => 10 * a + (c.toNat - '0'.toNat)) 0

/-- Rust `str::parse::<i64>`: an optional single sign followed by at
least one ASCII digit, rejected on overflow of the two's-complement
64-bit range. -/
def rust_parse_i64 (s : String) : Option Int :=
  match s.data with
  | [] => none
  | c :: t =>
    let signed : Bool × List Char :=
      if c = '-' then (true, t) else if c = '+' then (false, t) else (false, c :: t)
    if signed.2 = [] then none
    else if signed.2.all Char.isDigit then
      let n : Int := digits_to_nat signed.2
      let v : Int := if signed.1 then -n else n
      if -(2 ^ 63) ≤ v ∧ v ≤ 2 ^ 63 - 1 then some v else none
    else none

/-- Rust `str::parse::<f64>`, modelled on the decimal forms the lexer
can produce — an optional single sign, digits, optionally followed by
`.` and at least one digit — returning the exact decimal value as a
rational.  Rust additionally accepts exponent, leading/trailing-dot,
`inf`/`NaN` forms (none of which `read_number` can emit) and rounds the
value to the nearest `f64`; no theorem below depends on those cases or
on the rounding. -/
def rust_parse_f64 (s : String) : Option Rat :=
  match s.data with
  | [] => none
  | c :: t =>
    let signed : Bool × List Char :=
      if c = '-' then (true, t) else if c = '+' then (false, t) else (false, c :: t)
    let ip := signed.2.takeWhile Char.isDigit
    let rest := signed.2.dropWhile Char.isDigit
    if ip = [] then none
    else
      let mag : Option Rat :=
        match rest with
        | [] => some (digits_to_nat ip)
        | '.' :: fr =>
          if fr ≠ [] ∧ fr.all Char.isDigit then
            some ((digits_to_nat ip : Rat) + (digits_to_nat fr : Rat) / (10 ^ fr.length : Nat))
          else none
        | _ => none
      match mag with
      | some m => some (if signed.1 then -m else m)
      | none => none

/-! ## Parser functions (parser.rs:67-328)

Every function takes the constant `current_line`/`current_column` values
`l c` and the remaining token suffix, and returns its result together
with the suffix left unconsumed (`Parser::advance` is "drop one"). -/

/-- The discriminant tag compared by `std::mem::discriminant` in
`Parser::expect` (parser.rs:96): tokens match when they are the same
variant, payloads ignored. -/
def Token.discr : Token → Nat
  | .Ident _ => 0
  | .StringLiteral _ => 1
  | .NumberLiteral _ => 2
  | .LParen => 3
  | .RParen => 4
  | .Semicolon => 5
  | .Equals => 6
  | .EOF => 7
  | .Illegal _ => 8
  | .StringType => 9
  | .IntegerType => 10
  | .FloatType => 11
  | .BooleanType => 12
  | .True => 13
  | .False => 14

/-- `Parser::expect` (parser.rs:94-110): consume one token, succeeding
exactly when it has the same discriminant as the expected token. -/
def expect (l c : Nat) (expected : Token) (toks : List Token) :
    Except ParseError (List Token) :=
  match toks with
  | tok :: rest =>
    if tok.discr = expected.discr then .ok rest
    else .error ⟨"Expected " ++ expected.debugFmt ++ ", got " ++ tok.debugFmt, l, c⟩
  | [] => .error ⟨"Expected " ++ expected.debugFmt ++ ", but no more tokens", l, c⟩

/-- `Parser::parse_type` (parser.rs:112-129). -/
def parse_type (l c : Nat) (toks : List Token) : Except ParseError (VarType × List Token) :=
  match toks with
  | .StringType :: rest => .ok (.String, rest)
  | .IntegerType :: rest => .ok (.Integer, rest)
  | .FloatType :: rest => .ok (.Float, rest)
  | .BooleanType :: rest => .ok (.Boolean, rest)
  | tok :: _ => .error ⟨"Expected type, got " ++ tok.debugFmt, l, c⟩
  | [] => .error ⟨"Expected type", l, c⟩

/-- Rust `str::contains(char)` as used at parser.rs:135 (`num.contains('.')`):
true exactly when the character occurs in the string.  (Lean's own
`String.contains` is byte-iterator based and does not reduce inside the
kernel, so the embedding uses the equivalent character-list membership.) -/
def string_contains (s : String) (c : Char) : Bool :=
  s.data.contains c

/-- `Parser::parse_value` (parser.rs:131-168): string, number (classified
float exactly when its text contains a decimal point, integer otherwise,
with a conversion-failure error naming the literal text), or boolean. -/
def parse_value (l c : Nat) (toks : List Token) : Except ParseError (Value × List Token) :=
  match toks with
  | .StringLiteral s :: rest => .ok (.String s, rest)
  | .NumberLiteral num :: rest =>
    if string_contains num '.' then
      match rust_parse_f64 num with
      | some f => .ok (.Float f, rest)
      | none => .error ⟨"Invalid float literal: " ++ num, l, c⟩
    else
      match rust_parse_i64 num with
      | some i => .ok (.Integer i, rest)
      | none => .error ⟨"Invalid integer literal: " ++ num, l, c⟩
  | .True :: rest => .ok (.Boolean true, rest)
  | .False :: rest => .ok (.Boolean false, rest)
  | tok :: _ => .error ⟨"Expected value, got " ++ tok.debugFmt, l, c⟩
  | [] => .error ⟨"Expected value", l, c⟩

/-- `Parser::parse_primary_expression` (parser.rs:170-196): a literal, a
variable reference, or a parenthesized sub-expression.

In the parenthesized case the source calls `parse_expression`, which (see
`parse_expression` below) is extensionally `parse_primary_expression`;
the recursive call is embedded directly so that the pair stays
structurally recursive. -/
def parse_primary_expression (l c : Nat) (toks : List Token) :
    Except ParseError (Expr × List Token) :=
  match toks with
  | .StringLiteral _ :: _ | .NumberLiteral _ :: _ | .True :: _ | .False :: _ =>
    match parse_value l c toks with
    | .ok (v, rest) => .ok (.Literal v, rest)
    | .error e => .error e
  | .Ident name :: rest => .ok (.Variable name, rest)
  | .LParen :: rest =>
    match parse_primary_expression l c rest with
    | .ok (e, rest') =>
      match expect l c .RParen rest' with
      | .ok rest'' => .ok (e, rest'')
      | .error err => .error err
    | .error err => .error err
  | _ => .error ⟨"Expected expression", l, c⟩

/-- `Parser::parse_expression` (parser.rs:198-213).  The source parses a
primary expression and then runs a
`while let Some(Token::Plus) = self.peek()` loop whose body would fold
further primaries into left-associated `BinaryOp`/`BinOp::Add` nodes.
The `Token` enum (lexer.rs:2-23) declares no `Plus` variant — the crate
does not compile as written — and the lexer can never produce such a
token (`+` falls through to `Token::Illegal('+')`), so the loop guard is
unsatisfiable and the loop is dead code: `parse_expression` reduces to
`parse_primary_expression`.  See the theorems for claim C1. -/
def parse_expression (l c : Nat) (toks : List Token) :
    Except ParseError (Expr × List Token) :=
  parse_primary_expression l c toks

/-- The type/value tag comparison of `Parser::parse_declaration`
(parser.rs:240-252): the declared type matches the literal exactly when
the tags agree. -/
def type_matches : VarType → Value → Bool
  | .String, .String _ => true
  | .Integer, .Integer _ => true
  | .Float, .Float _ => true
  | .Boolean, .Boolean _ => true
  | _, _ => false

/-- `Parser::parse_declaration` (parser.rs:215-261): type keyword,
variable name, `=`, literal value, tag check, `;`. -/
def parse_declaration (l c : Nat) (toks : List Token) :
    Except ParseError (Stmt × List Token) :=
  match parse_type l c toks with
  | .error e => .error e
  | .ok (var_type, r1) =>
    match r1 with
    | .Ident name :: r2 =>
      match expect l c .Equals r2 with
      | .error e => .error e
      | .ok r3 =>
        match parse_value l c r3 with
        | .error e => .error e
        | .ok (value, r4) =>
          if type_matches var_type value then
            match expect l c .Semicolon r4 with
            | .error e => .error e
            | .ok r5 => .ok (.Declaration var_type name value, r5)
          else
            .error ⟨"Type mismatch: cannot assign " ++ value_debug_fmt value ++ " to " ++
              vartype_debug_fmt var_type, l, c⟩
    | tok :: _ => .error ⟨"Expected variable name, got " ++ tok.debugFmt, l, c⟩
    | [] => .error ⟨"Expected variable name", l, c⟩

/-- `Parser::parse_call` (parser.rs:263-281): `(`, zero arguments when
the next token is `)` and otherwise exactly one expression, `)`, `;`. -/
def parse_call (l c : Nat) (name : String) (toks : List Token) :
    Except ParseError (Expr × List Token) :=
  match expect l c .LParen toks with
  | .error e => .error e
  | .ok r1 =>
    let argsRes : Except ParseError (List Expr × List Token) :=
      match r1 with
      | .RParen :: _ => .ok ([], r1)
      | _ =>
        match parse_expression l c r1 with
        | .ok (e, r2) => .ok ([e], r2)
        | .error e => .error e
    match argsRes with
    | .error e => .error e
    | .ok (args, r2) =>
      match expect l c .RParen r2 with
      | .error e => .error e
      | .ok r3 =>
        match expect l c .Semicolon r3 with
        | .error e => .error e
        | .ok r4 => .ok (.Call name args, r4)

/-! ### Consumption lemmas, used for the termination of the parse loop -/

theorem expect_ok_lt {l c : Nat} {expected : Token} {toks r : List Token}
    (h : expect l c expected toks = .ok r) : r.length < toks.length := by
  cases toks with
  | nil => simp [expect] at h
  | cons tok rest =>
    simp only [expect] at h
    split at h
    · cases h; simp
    · cases h

theorem parse_value_ok_lt {l c : Nat} {toks r : List Token} {v : Value}
    (h : parse_value l c toks = .ok (v, r)) : r.length < toks.length := by
  cases toks with
  | nil => simp [parse_value] at h
  | cons tok rest =>
    cases tok <;> simp only [parse_value] at h
    case NumberLiteral s =>
      split at h <;> split at h <;> cases h <;> (simp only [List.length_cons]; omega)
    all_goals (cases h <;> (simp only [List.length_cons]; omega))

theorem parse_primary_ok_lt {l c : Nat} :
    ∀ {toks r : List Token} {e : Expr},
      parse_primary_expression l c toks = .ok (e, r) → r.length < toks.length := by
  intro toks
  induction toks with
  | nil => intro r e h; simp [parse_primary_expression] at h
  | cons tok rest ih =>
    intro r e h
    cases tok <;> simp only [parse_primary_expression] at h
    case Ident name => cases h; simp
    case LParen =>
      split at h
      · next e1 r1 h1 =>
        split at h
        · next r2 h2 =>
          cases h
          have := ih h1
          have := expect_ok_lt h2
          simp only [List.length_cons]
          omega
        · cases h
      · cases h
    all_goals
      first
      | (split at h
         · next v r1 h1 =>
           cases h
           exact parse_value_ok_lt h1
         · cases h)
      | (cases h <;> (simp only [List.length_cons]; omega))

theorem parse_call_ok_lt {l c : Nat} {name : String} {toks r : List Token} {e : Expr}
    (h : parse_call l c name toks = .ok (e, r)) : r.length < toks.length := by
  simp only [parse_call] at h
  split at h
  · cases h
  · next r1 h1 =>
    have hr1 : r1.length < toks.length := expect_ok_lt h1
    split at h
    · cases h
    · next args r2 h2 =>
      have hr2 : r2.length ≤ r1.length := by
        split at h2
        · cases h2; exact le_refl _
        · split at h2
          · next e0 r0 h0 =>
            cases h2
            exact le_of_lt (parse_primary_ok_lt h0)
          · cases h2
      split at h
      · cases h
      · next r3 h3 =>
        have hr3 : r3.length < r2.length := expect_ok_lt h3
        split at h
        · cases h
        · next r4 h4 =>
          cases h
          have hr4 : r.length < r3.length := expect_ok_lt h4
          omega

theorem parse_type_ok_lt {l c : Nat} {toks r : List Token} {vt : VarType}
    (h : parse_type l c toks = .ok (vt, r)) : r.length < toks.length := by
  cases toks with
  | nil => simp [parse_type] at h
  | cons tok rest => cases tok <;> simp only [parse_type] at h <;> cases h <;> simp

theorem parse_declaration_ok_lt {l c : Nat} {toks r : List Token} {stmt : Stmt}
    (h : parse_declaration l c toks = .ok (stmt, r)) : r.length < toks.length := by
  simp only [parse_declaration] at h
  split at h
  · cases h
  · next vt r1 h1 =>
    have hr1 : r1.length < toks.length := parse_type_ok_lt h1
    split at h
    · next name r2 =>
      split at h
      · cases h
      · next r3 h3 =>
        have hr3 : r3.length < r2.length := expect_ok_lt h3
        split at h
        · cases h
        · next v r4 h4 =>
          have hr4 : r4.length < r3.length := parse_value_ok_lt h4
          split at h
          · split at h
            · cases h
            · next r5 h5 =>
              cases h
              have hr5 : r.length < r4.length := expect_ok_lt h5
              simp only [List.length_cons] at hr1
              omega
          · cases h
    · cases h
    · cases h

/-- `Parser::parse` (parser.rs:283-328), the statement loop: a type
keyword starts a declaration, an identifier equal to the builtin name
`"echo"` starts a call statement (any other identifier is an
unknown-function-or-variable error), `EOF` ends parsing, an `Illegal`
token or any other token is a hard error.  The source accumulates the
statement vector imperatively; the embedding conses each parsed statement
onto the program of the remaining tokens, producing the same list. -/
def parse (l c : Nat) (toks : List Token) : Except ParseError Program :=
  match toks with
  | [] => .ok ⟨[]⟩
  | .EOF :: _ => .ok ⟨[]⟩
  | .Illegal ch :: _ => .error ⟨"Invalid character: '" ++ ch.toString ++ "'", l, c⟩
  | .Ident name :: rest =>
    if name = "echo" then
      match hc : parse_call l c name rest with
      | .error e => .error e
      | .ok (expr, rest') =>
        match parse l c rest' with
        | .error e => .error e
        | .ok prog => .ok ⟨.Expression expr :: prog.statements⟩
    else .error ⟨"Unknown function or variable: " ++ name, l, c⟩
  | .StringType :: rest =>
    match hd : parse_declaration l c (.StringType :: rest) with
    | .error e => .error e
    | .ok (stmt, rest') =>
      match parse l c rest' with
      | .error e => .error e
      | .ok prog => .ok ⟨stmt :: prog.statements⟩
  | .IntegerType :: rest =>
    match hd : parse_declaration l c (.IntegerType :: rest) with
    | .error e => .error e
    | .ok (stmt, rest') =>
      match parse l c rest' with
      | .error e => .error e
      | .ok prog => .ok ⟨stmt :: prog.statements⟩
  | .FloatType :: rest =>
    match hd : parse_declaration l c (.FloatType :: rest) with
    | .error e => .error e
    | .ok (stmt, rest') =>
      match parse l c rest' with
      | .error e => .error e
      | .ok prog => .ok ⟨stmt :: prog.statements⟩
  | .BooleanType :: rest =>
    match hd : parse_declaration l c (.BooleanType :: rest) with
    | .error e => .error e
    | .ok (stmt, rest') =>
      match parse l c rest' with
      | .error e => .error e
      | .ok prog => .ok ⟨stmt :: prog.statements⟩
  | tok :: _ => .error ⟨"Unexpected token: " ++ Token.debugFmt tok, l, c⟩
termination_by toks.length
decreasing_by
  · exact Nat.lt_trans (parse_call_ok_lt hc) (by simp)
  · exact parse_declaration_ok_lt hd
  · exact parse_declaration_ok_lt hd
  · exact parse_declaration_ok_lt hd
  · exact parse_declaration_ok_lt hd

/-- Plain unfolding equation for `parse` (the definition uses dependent
matches for its termination proof). -/
theorem parse_eq (l c : Nat) (toks : List Token) :
    parse l c toks =
      match toks with
      | [] => .ok ⟨[]⟩
      | .EOF :: _ => .ok ⟨[]⟩
      | .Illegal ch :: _ => .error ⟨"Invalid character: '" ++ ch.toString ++ "'", l, c⟩
      | .Ident name :: rest =>
        if name = "echo" then
          match parse_call l c name rest with
          | .error e => .error e
          | .ok (expr, rest') =>
            match parse l c rest' with
            | .error e => .error e
            | .ok prog => .ok ⟨.Expression expr :: prog.statements⟩
        else .error ⟨"Unknown function or variable: " ++ name, l, c⟩
      | .StringType :: _ | .IntegerType :: _ | .FloatType :: _ | .BooleanType :: _ =>
        match parse_declaration l c toks with
        | .error e => .error e
        | .ok (stmt, rest') =>
          match parse l c rest' with
          | .error e => .error e
          | .ok prog => .ok ⟨stmt :: prog.statements⟩
      | tok :: _ => .error ⟨"Unexpected token: " ++ Token.debugFmt tok, l, c⟩ := by
  rcases toks with _ | ⟨tok, rest⟩
  · rw [parse]
  · cases tok
    case Ident name =>
      by_cases hname : name = "echo"
      · subst hname
        rw [parse]
        simp only [if_true]
        cases hc : parse_call l c "echo" rest with
        | error e => simp
        | ok pair =>
          obtain ⟨expr, rest'⟩ := pair
          simp
      · rw [parse]
        simp [hname]
    case StringType =>
      rw [parse]
      cases hd : parse_declaration l c (.StringType :: rest) with
      | error e => simp
      | ok pair => obtain ⟨stmt, rest'⟩ := pair; simp
    case IntegerType =>
      rw [parse]
      cases hd : parse_declaration l c (.IntegerType :: rest) with
      | error e => simp
      | ok pair => obtain ⟨stmt, rest'⟩ := pair; simp
    case FloatType =>
      rw [parse]
      cases hd : parse_declaration l c (.FloatType :: rest) with
      | error e => simp
      | ok pair => obtain ⟨stmt, rest'⟩ := pair; simp
    case BooleanType =>
      rw [parse]
      cases hd : parse_declaration l c (.BooleanType :: rest) with
      | error e => simp
      | ok pair => obtain ⟨stmt, rest'⟩ := pair; simp
    all_goals rw [parse]
    all_goals (intros; simp_all)

/-- `Parser::new` followed by `Parser::parse`: parse a token sequence
with the error position fields at their initial value 1, 1. -/
def parse_program (toks : List Token) : Except ParseError Program :=
  parse 1 1 toks

/-! ## Helper lemmas -/

theorem skip_comments_eq_self {rem : List Char} (pos : Nat)
    (h : ∀ t : List Char, rem ≠ '/' :: '/' :: t) : skip_comments rem pos = (rem, pos) := by
  rw [skip_comments.eq_def]
  split
  · next t => exact absurd rfl (h t)
  · rfl

theorem string_mk_inj {a b : List Char} : String.mk a = String.mk b ↔ a = b :=
  ⟨fun h => by injection h, fun h => by rw [h]⟩

/-- Scanning a string-literal body free of quote, backslash and newline
copies it verbatim up to the closing quote. -/
theorem read_string_loop_plain (body : List Char)
    (hb : ∀ ch ∈ body, ch ≠ '"' ∧ ch ≠ '\\' ∧ ch ≠ '\n') :
    ∀ (rest : List Char) (pos : Nat) (acc : String),
      read_string_loop (body ++ '"' :: rest) pos acc =
        .ok (⟨acc.data ++ body⟩, rest, pos + body.length + 1) := by
  induction body with
  | nil =>
    intro rest pos acc
    simp [read_string_loop]
  | cons ch bs ih =>
    intro rest pos acc
    obtain ⟨h1, h2, h3⟩ := hb ch (by simp)
    have hb' : ∀ c ∈ bs, c ≠ '"' ∧ c ≠ '\\' ∧ c ≠ '\n' := fun c hc => hb c (by simp [hc])
    rw [List.cons_append]
    simp only [read_string_loop, h1, h2, h3]
    rw [ih hb' rest (pos + 1) (acc.push ch)]
    simp only [Except.ok.injEq, Prod.mk.injEq, string_mk_inj, String.data_push,
      List.append_assoc, List.singleton_append, List.length_cons]
    refine ⟨by trivial, by trivial, by omega⟩

/-- `read_string` on a quoted body free of quote, backslash and newline
returns exactly that body. -/
theorem read_string_plain (body rest : List Char) (pos : Nat)
    (hb : ∀ ch ∈ body, ch ≠ '"' ∧ ch ≠ '\\' ∧ ch ≠ '\n') :
    read_string ('"' :: (body ++ '"' :: rest)) pos =
      .ok (⟨body⟩, rest, pos + body.length + 2) := by
  unfold read_string
  rw [List.tail_cons]
  rw [read_string_loop_plain body hb rest (pos + 1) ""]
  simp only [Except.ok.injEq, Prod.mk.injEq, string_mk_inj]
  refine ⟨by trivial, by trivial, by omega⟩

/-! ## C5: string literal scanning and its error cases -/

/-- **C5.**  For every input, when a quote character starts a string
literal: characters are copied verbatim until a closing quote (parts 1,
2 and 7); a backslash followed by `n`, `t`, `r`, the quote character, or
backslash decodes to newline, tab, carriage return, quote, or backslash
(part 3); a backslash followed by any other character yields the
"Unknown escape sequence" error (part 4); an unescaped newline yields the
"Unclosed string" error (part 5); and reaching end of input before a
closing quote yields the "Unterminated string constant" error (part 6). -/
theorem c5_string_scanning :
    (∀ (t : List Char) (pos : Nat) (acc : String),
        read_string_loop ('"' :: t) pos acc = .ok (acc, t, pos + 1)) ∧
    (∀ (ch : Char) (t : List Char) (pos : Nat) (acc : String),
        ch ≠ '"' → ch ≠ '\\' → ch ≠ '\n' →
        read_string_loop (ch :: t) pos acc = read_string_loop t (pos + 1) (acc.push ch)) ∧
    (∀ (t : List Char) (pos : Nat) (acc : String),
        read_string_loop ('\\' :: 'n' :: t) pos acc =
          read_string_loop t (pos + 2) (acc.push '\n') ∧
        read_string_loop ('\\' :: 't' :: t) pos acc =
          read_string_loop t (pos + 2) (acc.push '\t') ∧
        read_string_loop ('\\' :: 'r' :: t) pos acc =
          read_string_loop t (pos + 2) (acc.push '\r') ∧
        read_string_loop ('\\' :: '"' :: t) pos acc =
          read_string_loop t (pos + 2) (acc.push '"') ∧
        read_string_loop ('\\' :: '\\' :: t) pos acc =
          read_string_loop t (pos + 2) (acc.push '\\')) ∧
    (∀ (esc : Char) (t : List Char) (pos : Nat) (acc : String),
        esc ≠ 'n' → esc ≠ 't' → esc ≠ 'r' → esc ≠ '"' → esc ≠ '\\' →
        read_string_loop ('\\' :: esc :: t) pos acc =
          .error ⟨"Unknown escape sequence: \\" ++ esc.toString, pos + 1⟩) ∧
    (∀ (t : List Char) (pos : Nat) (acc : String),
        read_string_loop ('\n' :: t) pos acc = .error ⟨"Unclosed string", pos⟩) ∧
    (∀ (pos : Nat) (acc : String),
        read_string_loop [] pos acc = .error ⟨"Unterminated string constant", pos⟩) ∧
    (∀ (body rest : List Char) (pos : Nat),
        (∀ ch ∈ body, ch ≠ '"' ∧ ch ≠ '\\' ∧ ch ≠ '\n') →
        read_string ('"' :: (body ++ '"' :: rest)) pos =
          .ok (⟨body⟩, rest, pos + body.length + 2)) := by
  refine ⟨?_, ?_, ?_, ?_, ?_, ?_, ?_⟩
  · intro t pos acc; rfl
  · intro ch t pos acc h1 h2 h3
    simp only [read_string_loop, h1, h2, h3]
  · intro t pos acc
    refine ⟨rfl, rfl, rfl, rfl, rfl⟩
  · intro esc t pos acc h1 h2 h3 h4 h5
    simp only [read_string_loop, h1, h2, h3, h4, h5, if_false]
  · intro t pos acc; rfl
  · intro pos acc; rfl
  · exact fun body rest pos hb => read_string_plain body rest pos hb

/-- Witness for C5: each hypothesis-bearing part applied at a concrete
input. -/
theorem c5_witness :
    (read_string_loop ['x', '"'] 7 "a" = read_string_loop ['"'] 8 "ax") ∧
    (read_string_loop ['\\', 'q'] 3 "" =
      .error ⟨"Unknown escape sequence: \\q", 4⟩) ∧
    (read_string ['"', 'h', 'i', '"'] 0 = .ok ("hi", [], 4)) := by
  refine ⟨?_, ?_, ?_⟩
  · exact c5_string_scanning.2.1 'x' ['"'] 7 "a" (by decide) (by decide) (by decide)
  · exact c5_string_scanning.2.2.2.1 'q' [] 3 "" (by decide) (by decide) (by decide)
      (by decide) (by decide)
  · exact c5_string_scanning.2.2.2.2.2.2 ['h', 'i'] [] 0 (by decide)

/-! ## C9: round-trip of plain string literal bodies -/

/-- Modelled from the spec: the re-escaping direction of the §8
round-trip property ("lexing then re-escaping reproduces the original
body").  No escaping function exists in the source; per the spec's
escape table, quote, backslash and newline are escaped and every other
character maps to itself. -/
def escape_string (s : String) : String :=
  String.join (s.data.map fun ch =>
    if ch = '"' then "\\\""
    else if ch = '\\' then "\\\\"
    else if ch = '\n' then "\\n"
    else ch.toString)

theorem join_singletons (l : List Char) :
    String.join (l.map Char.toString) = ⟨l⟩ := by
  have general : ∀ (l : List Char) (acc : String),
      (l.map Char.toString).foldl (· ++ ·) acc = ⟨acc.data ++ l⟩ := by
    intro l
    induction l with
    | nil => intro acc; simp
    | cons ch t ih =>
      intro acc
      simp only [List.map_cons, List.foldl_cons]
      rw [ih]
      have : (acc ++ ch.toString).data = acc.data ++ [ch] := by
        rw [String.data_append]
        rfl
      rw [this]
      simp
  unfold String.join
  rw [general l ""]
  rfl

/-- **C9.**  For every string literal whose body contains only characters
other than the double quote, the backslash, and the newline: lexing the
quoted form yields a `StringLiteral` token whose value is exactly the
original body (stated both for `read_string` and for `next_token`), and
re-escaping is the identity on such bodies, reproducing the body
exactly. -/
theorem c9_round_trip (body rest : List Char) (pos : Nat)
    (hb : ∀ ch ∈ body, ch ≠ '"' ∧ ch ≠ '\\' ∧ ch ≠ '\n') :
    read_string ('"' :: (body ++ '"' :: rest)) pos =
      .ok (⟨body⟩, rest, pos + body.length + 2) ∧
    next_token ('"' :: (body ++ '"' :: rest)) pos =
      .ok (.StringLiteral ⟨body⟩, rest, pos + body.length + 2) ∧
    escape_string ⟨body⟩ = ⟨body⟩ := by
  refine ⟨read_string_plain body rest pos hb, ?_, ?_⟩
  · have hw : skip_whitespace ('"' :: (body ++ '"' :: rest)) pos =
        ('"' :: (body ++ '"' :: rest), pos) := by
      rw [skip_whitespace]
      simp [(by decide : rust_is_whitespace '"' = false)]
    have hc : skip_comments ('"' :: (body ++ '"' :: rest)) pos =
        ('"' :: (body ++ '"' :: rest), pos) := by
      refine skip_comments_eq_self pos fun t heq => ?_
      simp at heq
    simp only [next_token, hw, hc]
    rw [read_string_plain body rest pos hb]
    simp
  · unfold escape_string
    have : (String.mk body).data.map (fun ch =>
        if ch = '"' then "\\\""
        else if ch = '\\' then "\\\\"
        else if ch = '\n' then "\\n"
        else ch.toString) = (String.mk body).data.map Char.toString := by
      apply List.map_congr_left
      intro ch hch
      obtain ⟨h1, h2, h3⟩ := hb ch hch
      simp [h1, h2, h3]
    rw [this]
    exact join_singletons body

/-- Witness for C9: the round trip at a concrete literal. -/
theorem c9_witness :
    read_string ['"', 'h', 'i', '"'] 0 = .ok ("hi", [], 4) ∧
    next_token ['"', 'h', 'i', '"'] 0 = .ok (.StringLiteral "hi", [], 4) ∧
    escape_string "hi" = "hi" :=
  c9_round_trip ['h', 'i'] [] 0 (by decide)

/-! ## C10: the incomplete-escape error -/


/-- Scanning a plain body that ends in a bare backslash at end of input
reaches the incomplete-escape error. -/
theorem read_string_loop_plain_incomplete (body : List Char)
    (hb : ∀ ch ∈ body, ch ≠ '"' ∧ ch ≠ '\\' ∧ ch ≠ '\n') :
    ∀ (pos : Nat) (acc : String),
      read_string_loop (body ++ ['\\']) pos acc =
        .error ⟨"Incomplete escape sequence", pos + body.length + 1⟩ := by
  induction body with
  | nil => intro pos acc; rfl
  | cons ch bs ih =>
    intro pos acc
    obtain ⟨h1, h2, h3⟩ := hb ch (by simp)
    have hb' : ∀ c ∈ bs, c ≠ '"' ∧ c ≠ '\\' ∧ c ≠ '\n' := fun c hc => hb c (by simp [hc])
    rw [List.cons_append]
    simp only [read_string_loop, h1, h2, h3]
    rw [ih hb' (pos + 1) (acc.push ch)]
    simp only [Except.error.injEq, LexError.mk.injEq, List.length_cons]
    refine ⟨by trivial, by omega⟩

/-- **C10.**  A backslash inside a string literal that is the last
character of the input produces the "Incomplete escape sequence" error —
both at the point where the loop meets the bare backslash and end-to-end
from the opening quote — and that error is a third case distinct from the
unknown-escape error and from both other string errors. -/
theorem c10_incomplete_escape :
    (∀ (pos : Nat) (acc : String),
        read_string_loop ['\\'] pos acc =
          .error ⟨"Incomplete escape sequence", pos + 1⟩) ∧
    (∀ (body : List Char) (pos : Nat),
        (∀ ch ∈ body, ch ≠ '"' ∧ ch ≠ '\\' ∧ ch ≠ '\n') →
        read_string ('"' :: (body ++ ['\\'])) pos =
          .error ⟨"Incomplete escape sequence", pos + body.length + 2⟩) ∧
    ("Incomplete escape sequence" ≠ "Unclosed string" ∧
     "Incomplete escape sequence" ≠ "Unterminated string constant" ∧
     ∀ esc : Char, "Incomplete escape sequence" ≠
       "Unknown escape sequence: \\" ++ esc.toString) := by
  refine ⟨fun pos acc => rfl, ?_, by decide, by decide, ?_⟩
  · intro body pos hb
    unfold read_string
    rw [List.tail_cons]
    rw [read_string_loop_plain_incomplete body hb (pos + 1) ""]
    simp only [Except.error.injEq, LexError.mk.injEq]
    refine ⟨by trivial, by omega⟩
  · intro esc h
    have := congrArg (fun s => s.data.head?) h
    simp [String.data_append] at this

/-- Witness for C10: the incomplete-escape error at a concrete input. -/
theorem c10_witness :
    read_string ['"', 'a', '\\'] 0 = .error ⟨"Incomplete escape sequence", 3⟩ :=
  c10_incomplete_escape.2.1 ['a'] 0 (by decide)

/-! ## C7: whitespace- and comment-only source texts -/

/-- Source texts consisting only of whitespace characters and line
comments: empty, a whitespace character followed by such a text, or a
line comment (`//` then a newline-free body) that either runs to end of
input or is terminated by a newline followed by such a text. -/
inductive WsComText : List Char → Prop
  | nil : WsComText []
  | ws {c : Char} {t : List Char} :
      rust_is_whitespace c = true → WsComText t → WsComText (c :: t)
  | comEnd {body : List Char} :
      (∀ ch ∈ body, ch ≠ '\n') → WsComText ('/' :: '/' :: body)
  | comNl {body t : List Char} :
      (∀ ch ∈ body, ch ≠ '\n') → WsComText t →
      WsComText ('/' :: '/' :: (body ++ '\n' :: t))

theorem skip_comments_nil (pos : Nat) : skip_comments [] pos = ([], pos) :=
  skip_comments_eq_self pos (by intro t h; simp at h)

theorem skip_to_newline_no_nl (body : List Char) (h : ∀ ch ∈ body, ch ≠ '\n') :
    ∀ pos, skip_to_newline body pos = ([], pos + body.length) := by
  induction body with
  | nil => intro pos; rfl
  | cons ch t ih =>
    intro pos
    have h1 : ch ≠ '\n' := (h ch (by simp))
    have h2 : ∀ c ∈ t, c ≠ '\n' := fun c hc => h c (by simp [hc])
    rw [skip_to_newline]
    simp only [h1, if_false]
    rw [ih h2 (pos + 1)]
    simp only [Prod.mk.injEq, List.length_cons]
    refine ⟨by trivial, by omega⟩

theorem skip_to_newline_to_nl (body : List Char) (h : ∀ ch ∈ body, ch ≠ '\n')
    (t : List Char) :
    ∀ pos, skip_to_newline (body ++ '\n' :: t) pos = ('\n' :: t, pos + body.length) := by
  induction body with
  | nil => intro pos; rfl
  | cons ch bs ih =>
    intro pos
    have h1 : ch ≠ '\n' := (h ch (by simp))
    have h2 : ∀ c ∈ bs, c ≠ '\n' := fun c hc => h c (by simp [hc])
    rw [List.cons_append, skip_to_newline]
    simp only [h1, if_false]
    rw [ih h2 (pos + 1)]
    simp only [Prod.mk.injEq, List.length_cons]
    refine ⟨by trivial, by omega⟩

/-- On a whitespace/comment-only text, whitespace skipping followed by
comment skipping consumes the whole input. -/
theorem wscom_skip {s : List Char} (hs : WsComText s) :
    ∀ pos, (skip_comments (skip_whitespace s pos).1 (skip_whitespace s pos).2).1 = [] := by
  induction hs with
  | nil =>
    intro pos
    rw [show skip_whitespace [] pos = ([], pos) from rfl, skip_comments_nil]
  | ws hc _ ih =>
    intro pos
    rw [skip_whitespace]
    simp only [hc, if_true]
    exact ih _
  | comEnd hbody =>
    intro pos
    rename_i body
    have h1 : skip_whitespace ('/' :: '/' :: body) pos = ('/' :: '/' :: body, pos) := by
      rw [skip_whitespace]
      simp [(by decide : rust_is_whitespace '/' = false)]
    rw [h1, skip_comments]
    simp only [skip_to_newline_no_nl _ hbody]
    rw [show ∀ p, skip_whitespace [] p = ([], p) from fun p => rfl, skip_comments_nil]
  | comNl hbody _ ih =>
    intro pos
    rename_i body t ht
    have h1 : skip_whitespace ('/' :: '/' :: (body ++ '\n' :: t)) pos =
        ('/' :: '/' :: (body ++ '\n' :: t), pos) := by
      rw [skip_whitespace]
      simp [(by decide : rust_is_whitespace '/' = false)]
    rw [h1, skip_comments]
    simp only [skip_to_newline_to_nl _ hbody]
    rw [show ∀ p, skip_whitespace ('\n' :: t) p = skip_whitespace t (p + 1) from fun p => by
      rw [skip_whitespace]; simp [(by decide : rust_is_whitespace '\n' = true)]]
    exact ih _

/-- **C7.**  For every source text consisting only of whitespace
characters and line comments, tokenization succeeds and returns exactly
one token, the end-of-input token. -/
theorem c7_whitespace_comments_only (src : String) (hs : WsComText src.data) :
    tokenize src = .ok [.EOF] := by
  unfold tokenize
  rw [tokenize_loop_eq]
  have hnil := wscom_skip hs 0
  have hnt : next_token src.data 0 = .ok (.EOF, [],
      (skip_comments (skip_whitespace src.data 0).1 (skip_whitespace src.data 0).2).2) := by
    simp only [next_token]
    rw [hnil]
  rw [hnt]
  simp

/-- Witness for C7: a concrete text of spaces, tabs, a newline and two
comments (one newline-terminated, one running to end of input). -/
theorem c7_witness : tokenize "  // hi\n\t// ok" = .ok [.EOF] := by
  refine c7_whitespace_comments_only _ ?_
  show WsComText [' ', ' ', '/', '/', ' ', 'h', 'i', '\n', '\t', '/', '/', ' ', 'o', 'k']
  refine .ws (by decide) (.ws (by decide) ?_)
  have h2 : WsComText ['\t', '/', '/', ' ', 'o', 'k'] :=
    .ws (by decide) (.comEnd (by decide))
  exact @WsComText.comNl [' ', 'h', 'i'] ['\t', '/', '/', ' ', 'o', 'k'] (by decide) h2

/-! ## C1: `+` never lexes to a plus token and addition cannot parse

The expression grammar of `Parser::parse_expression` (parser.rs:198-213)
is written to fold primaries joined by `Token::Plus` into left-associated
`BinaryOp`/`BinOp::Add` nodes, but the `Token` enum (lexer.rs:2-23)
declares no `Plus` variant and `Lexer::next_token` has no rule for `+`,
which therefore lexes as `Token::Illegal('+')`.  The theorem demonstrates
the resulting behaviour on the spec's own example `1 + 2 + 3`. -/

/-- **C1 (code bug).**  Lexing `echo(1 + 2 + 3);` turns each `+` into an
`Illegal('+')` token, and parsing that token sequence fails with an
expected-`RParen` error instead of producing a left-associated addition
tree; moreover `parse_expression` is extensionally
`parse_primary_expression`, so no `BinaryOp` node is ever built. -/
theorem c1_plus_lexes_illegal_and_addition_fails :
    tokenize "echo(1 + 2 + 3);" = .ok [.Ident "echo", .LParen, .NumberLiteral "1",
      .Illegal '+', .NumberLiteral "2", .Illegal '+', .NumberLiteral "3",
      .RParen, .Semicolon, .EOF] ∧
    parse_program [.Ident "echo", .LParen, .NumberLiteral "1", .Illegal '+',
      .NumberLiteral "2", .Illegal '+', .NumberLiteral "3", .RParen, .Semicolon, .EOF] =
      .error ⟨"Expected RParen, got Illegal('+')", 1, 1⟩ ∧
    (∀ (l c : Nat) (toks : List Token),
      parse_expression l c toks = parse_primary_expression l c toks) := by
  refine ⟨?_, ?_, fun l c toks => rfl⟩
  · show tokenize_loop
      ['e', 'c', 'h', 'o', '(', '1', ' ', '+', ' ', '2', ' ', '+', ' ', '3', ')', ';'] 0 = _
    simp [tokenize_loop_eq, next_token, skip_comments, skip_to_newline, skip_whitespace,
      rust_is_whitespace, rust_is_alphabetic, rust_is_alphanumeric, read_string,
      read_string_loop, read_ident, read_number, keyword_or_ident]
    decide
  · have h1 : string_contains "1" '.' = false := by decide
    have h2 : rust_parse_i64 "1" = some 1 := by decide
    simp [parse_program, parse_eq, parse_call, parse_expression, parse_primary_expression,
      parse_value, expect, Token.discr, Token.debugFmt, char_debug_fmt, h1, h2]
    decide

/-! ## C2: character classification in next_token -/

/-- **C2 (counterexample).**  The claim says every non-ASCII character at
the scan position is a hard lexical error aborting tokenization; but the
identifier rule of `next_token` uses the Unicode-aware
`char::is_alphabetic`, so the non-ASCII letter `я` starts an identifier
and tokenization succeeds. -/
theorem c2_counterexample : tokenize "я" = .ok [.Ident "я", .EOF] := by
  show tokenize_loop ['я'] 0 = _
  simp [tokenize_loop_eq, next_token, skip_comments, skip_to_newline, skip_whitespace,
    rust_is_whitespace, rust_is_alphabetic, rust_is_alphanumeric, read_string,
    read_string_loop, read_ident, read_number, keyword_or_ident]
  decide

/-- **C2 (amended).**  An ASCII character at the scan position matching no
earlier rule (not whitespace, punctuation, quote, digit, letter,
underscore, nor the start of a `//` comment) becomes an `Illegal` token
rather than an error; a non-ASCII character is an "Invalid character"
lexical error only when it matches no earlier rule either — non-ASCII
alphabetic characters such as `я` begin identifiers, and non-ASCII
whitespace such as U+00A0 is skipped, while `€` is a hard error. -/
theorem c2_ascii_illegal_nonascii_classified :
    (∀ (ch : Char) (rest : List Char),
        ch.toNat ≤ 127 →
        rust_is_whitespace ch = false →
        ch ≠ '(' → ch ≠ ')' → ch ≠ ';' → ch ≠ '=' → ch ≠ '"' →
        ch.isDigit = false →
        rust_is_alphabetic ch = false → ch ≠ '_' →
        ¬(ch = '/' ∧ rest.head? = some '/') →
        next_token (ch :: rest) 0 = .ok (.Illegal ch, rest, 1)) ∧
    tokenize "я" = .ok [.Ident "я", .EOF] ∧
    tokenize "€" = .error ⟨"Invalid character: '€'", 0⟩ ∧
    tokenize " " = .ok [.EOF] := by
  refine ⟨?_, ?_, ?_, ?_⟩
  · intro ch rest hascii hws hp1 hp2 hp3 hp4 hq hdig halpha hund hcom
    have hw : skip_whitespace (ch :: rest) 0 = (ch :: rest, 0) := by
      rw [skip_whitespace]
      simp [hws]
    have hc : skip_comments (ch :: rest) 0 = (ch :: rest, 0) := by
      refine skip_comments_eq_self 0 fun t heq => ?_
      injection heq with hch hrest
      exact hcom ⟨hch, by rw [hrest]; rfl⟩
    simp only [next_token, hw, hc]
    simp [hp1, hp2, hp3, hp4, hq, hdig, halpha, hund, hascii]
  · show tokenize_loop ['я'] 0 = _
    simp [tokenize_loop_eq, next_token, skip_comments, skip_to_newline, skip_whitespace,
      rust_is_whitespace, rust_is_alphabetic, rust_is_alphanumeric, read_string,
      read_string_loop, read_ident, read_number, keyword_or_ident]
    decide
  · show tokenize_loop ['€'] 0 = _
    simp [tokenize_loop_eq, next_token, skip_comments, skip_to_newline, skip_whitespace,
      rust_is_whitespace, rust_is_alphabetic, rust_is_alphanumeric, read_string,
      read_string_loop, read_ident, read_number, keyword_or_ident]
    decide
  · show tokenize_loop [' '] 0 = _
    simp [tokenize_loop_eq, next_token, skip_comments, skip_to_newline, skip_whitespace,
      rust_is_whitespace, rust_is_alphabetic, rust_is_alphanumeric, read_string,
      read_string_loop, read_ident, read_number, keyword_or_ident]

/-- Witness for C2: the Illegal-token case applied at `@`. -/
theorem c2_witness : next_token ['@'] 0 = .ok (.Illegal '@', [], 1) :=
  c2_ascii_illegal_nonascii_classified.1 '@' [] (by decide) (by decide) (by decide)
    (by decide) (by decide) (by decide) (by decide) (by decide) (by decide) (by decide)
    (by simp)

/-! ## C6: numeric literals -/

/-- The remaining input begins with something `read_number` does not
consume: end of input, or a non-digit that is not a decimal point
followed by a digit while no decimal point has been consumed yet. -/
def number_boundary (hasDot : Bool) : List Char → Prop
  | [] => True
  | ch :: t => ch.isDigit = false ∧
      (ch = '.' → hasDot = false →
        match t with
        | [] => True
        | d :: _ => d.isDigit = false)

theorem read_number_stop (rest : List Char) (pos : Nat) (hasDot : Bool) (acc : String)
    (hb : number_boundary hasDot rest) : read_number rest pos hasDot acc = (acc, rest, pos) := by
  rcases rest with _ | ⟨ch, t⟩
  · rfl
  · obtain ⟨h1, h2⟩ := hb
    by_cases hdot : ch = '.'
    · cases hasDot with
      | true => simp [read_number, h1, hdot]
      | false =>
        rcases t with _ | ⟨d, ts⟩
        · simp [read_number, h1, hdot]
        · have hd : d.isDigit = false := h2 hdot rfl
          simp [read_number, h1, hdot, hd]
    · simp [read_number, h1, hdot]

theorem data_empty : ("" : String).data = [] := rfl

theorem read_number_digits (ds : List Char) (hds : ∀ d ∈ ds, d.isDigit = true) :
    ∀ (rest : List Char) (pos : Nat) (hasDot : Bool) (acc : String),
      read_number (ds ++ rest) pos hasDot acc =
        read_number rest (pos + ds.length) hasDot ⟨acc.data ++ ds⟩ := by
  induction ds with
  | nil => intro rest pos hasDot acc; simp
  | cons d ds ih =>
    intro rest pos hasDot acc
    have h1 : d.isDigit = true := hds d (by simp)
    have h2 : ∀ c ∈ ds, c.isDigit = true := fun c hc => hds c (by simp [hc])
    rw [List.cons_append]
    rw [show read_number (d :: (ds ++ rest)) pos hasDot acc =
        read_number (ds ++ rest) (pos + 1) hasDot (acc.push d) from by
      simp [read_number, h1]]
    rw [ih h2 rest (pos + 1) hasDot (acc.push d)]
    have harith : pos + 1 + ds.length = pos + (ds.length + 1) := by omega
    rw [harith]
    have hdata : (acc.push d).data ++ ds = acc.data ++ d :: ds := by
      rw [String.data_push]
      simp
    rw [hdata]
    rfl

/-- **C6.**  Numeric literals: digits are consumed greedily up to a
non-digit (part 1); a decimal point is included only when immediately
followed by a digit, after which at most that one dot is part of the
token (part 2); a dot whose lookahead fails is left unconsumed (part 3);
during parsing a `NumberLiteral` token is classified as `Float` exactly
when its text contains a decimal point and as `Integer` otherwise, with
a conversion-failure error naming the literal text (part 4, the exact
branch structure of `parse_value`); and an out-of-range integer literal
such as 2^63 is rejected with an error naming the offending text
(part 5). -/
theorem c6_numeric_literals :
    (∀ (ds rest : List Char) (pos : Nat),
        (∀ d ∈ ds, d.isDigit = true) → number_boundary false rest →
        read_number (ds ++ rest) pos false "" = (⟨ds⟩, rest, pos + ds.length)) ∧
    (∀ (ds1 : List Char) (d : Char) (ds2 rest : List Char) (pos : Nat),
        (∀ x ∈ ds1, x.isDigit = true) → d.isDigit = true →
        (∀ x ∈ ds2, x.isDigit = true) → number_boundary true rest →
        read_number (ds1 ++ '.' :: d :: (ds2 ++ rest)) pos false "" =
          (⟨ds1 ++ '.' :: d :: ds2⟩, rest, pos + ds1.length + ds2.length + 2)) ∧
    (∀ (ds rest : List Char) (pos : Nat),
        (∀ d ∈ ds, d.isDigit = true) →
        (match rest with | [] => True | d :: _ => d.isDigit = false) →
        read_number (ds ++ '.' :: rest) pos false "" =
          (⟨ds⟩, '.' :: rest, pos + ds.length)) ∧
    (∀ (l c : Nat) (num : String) (rest : List Token),
        parse_value l c (.NumberLiteral num :: rest) =
          if string_contains num '.' then
            match rust_parse_f64 num with
            | some f => .ok (.Float f, rest)
            | none => .error ⟨"Invalid float literal: " ++ num, l, c⟩
          else
            match rust_parse_i64 num with
            | some i => .ok (.Integer i, rest)
            | none => .error ⟨"Invalid integer literal: " ++ num, l, c⟩) ∧
    (parse_value 1 1 [.NumberLiteral "12.5"] = .ok (.Float (25 / 2 : Rat), []) ∧
     parse_program [.IntegerType, .Ident "x", .Equals,
        .NumberLiteral "9223372036854775808", .Semicolon, .EOF] =
       .error ⟨"Invalid integer literal: 9223372036854775808", 1, 1⟩) := by
  refine ⟨?_, ?_, ?_, fun l c num rest => rfl, ?_, ?_⟩
  · intro ds rest pos hds hb
    rw [read_number_digits ds hds rest pos false ""]
    simp only [data_empty, List.nil_append]
    rw [read_number_stop rest (pos + ds.length) false ⟨ds⟩ hb]
  · intro ds1 d ds2 rest pos h1 h2 h3 hb
    have hd2 : ∀ x ∈ d :: ds2, x.isDigit = true := by
      intro x hx
      rcases List.mem_cons.mp hx with h | h
      · subst h; exact h2
      · exact h3 x h
    rw [read_number_digits ds1 h1 ('.' :: d :: (ds2 ++ rest)) pos false ""]
    simp only [data_empty, List.nil_append]
    rw [show read_number ('.' :: d :: (ds2 ++ rest)) (pos + ds1.length) false ⟨ds1⟩ =
        read_number (d :: (ds2 ++ rest)) (pos + ds1.length + 1) true (String.mk ds1 |>.push '.')
      from by simp [read_number, h2, (by decide : ('.' : Char).isDigit = false)]]
    rw [show (d : Char) :: (ds2 ++ rest) = (d :: ds2) ++ rest from rfl]
    rw [read_number_digits (d :: ds2) hd2 rest (pos + ds1.length + 1) true _]
    rw [read_number_stop rest _ true _ hb]
    have hdata : ((String.mk ds1).push '.').data ++ d :: ds2 = ds1 ++ '.' :: d :: ds2 := by
      rw [String.data_push]
      simp
    rw [hdata]
    simp only [Prod.mk.injEq, List.length_cons]
    refine ⟨by trivial, by trivial, by omega⟩
  · intro ds rest pos hds hb
    rw [read_number_digits ds hds ('.' :: rest) pos false ""]
    simp only [data_empty, List.nil_append]
    rw [read_number_stop ('.' :: rest) (pos + ds.length) false ⟨ds⟩ ?_]
    refine ⟨by decide, fun _ _ => ?_⟩
    rcases rest with _ | ⟨d, ts⟩
    · trivial
    · exact hb
  · have h1 : string_contains "12.5" '.' = true := by decide
    have h2 : rust_parse_f64 "12.5" = some (25 / 2 : Rat) := by
      have hdata : "12.5".data = ['1', '2', '.', '5'] := rfl
      simp [rust_parse_f64, hdata, digits_to_nat, List.takeWhile, List.dropWhile]
      norm_num
    simp [parse_value, h1, h2]
  · have h1 : string_contains "9223372036854775808" '.' = false := by decide
    have h2 : rust_parse_i64 "9223372036854775808" = none := by decide
    simp [parse_program, parse_eq, parse_declaration, parse_type, parse_value, expect,
      Token.discr, Token.debugFmt, type_matches, h1, h2]

/-- Witness for C6: the greedy/lookahead parts applied at concrete
inputs: `12;` stops at the semicolon, `3.25x` includes the single dot,
`7.x` leaves the dot unconsumed. -/
theorem c6_witness :
    read_number ['1', '2', ';'] 0 false "" = ("12", [';'], 2) ∧
    read_number ['3', '.', '2', '5', 'x'] 0 false "" = ("3.25", ['x'], 4) ∧
    read_number ['7', '.', 'x'] 0 false "" = ("7", ['.', 'x'], 1) := by
  refine ⟨?_, ?_, ?_⟩
  · exact c6_numeric_literals.1 ['1', '2'] [';'] 0 (by decide)
      (by exact ⟨by decide, fun h => absurd h (by decide)⟩)
  · exact c6_numeric_literals.2.1 ['3'] '2' ['5'] ['x'] 0 (by decide) (by decide) (by decide)
      (by exact ⟨by decide, fun h => absurd h (by decide)⟩)
  · exact c6_numeric_literals.2.2.1 ['7'] ['x'] 0 (by decide) (by decide)

/-! ## C4: statement-position identifiers and the echo call -/

/-- **C4.**  At statement position, an identifier whose text is not
exactly `"echo"` is an unknown-function-or-variable error (part 1); the
identifier `"echo"` starts a call statement whose result is consed onto
the rest of the program (part 2); in the call, after the required `(`,
zero expressions are parsed when the next token is `)` — the argument
list is empty and `)` and `;` are then required (part 3) — and otherwise
exactly one expression is parsed, followed by the required `)` and `;`,
the argument list holding exactly that expression (part 4). -/
theorem c4_statement_identifiers :
    (∀ (l c : Nat) (name : String) (rest : List Token), name ≠ "echo" →
        parse l c (.Ident name :: rest) =
          .error ⟨"Unknown function or variable: " ++ name, l, c⟩) ∧
    (∀ (l c : Nat) (rest : List Token),
        parse l c (.Ident "echo" :: rest) =
          match parse_call l c "echo" rest with
          | .error e => .error e
          | .ok (expr, rest') =>
            match parse l c rest' with
            | .error e => .error e
            | .ok prog => .ok ⟨.Expression expr :: prog.statements⟩) ∧
    (∀ (l c : Nat) (name : String) (rest : List Token),
        parse_call l c name (.LParen :: .RParen :: rest) =
          match expect l c .Semicolon rest with
          | .error e => .error e
          | .ok r2 => .ok (.Call name [], r2)) ∧
    (∀ (l c : Nat) (name : String) (toks : List Token),
        (∀ t, toks ≠ .RParen :: t) →
        parse_call l c name (.LParen :: toks) =
          match parse_expression l c toks with
          | .error e => .error e
          | .ok (arg, r2) =>
            match expect l c .RParen r2 with
            | .error e => .error e
            | .ok r3 =>
              match expect l c .Semicolon r3 with
              | .error e => .error e
              | .ok r4 => .ok (.Call name [arg], r4)) := by
  refine ⟨?_, ?_, ?_, ?_⟩
  · intro l c name rest hname
    rw [parse_eq]
    simp [hname]
  · intro l c rest
    rw [parse_eq]
    simp
  · intro l c name rest
    simp [parse_call, expect, Token.discr]
  · intro l c name toks hne
    simp only [parse_call]
    split
    · next e heq => simp [expect, Token.discr] at heq
    · next r1 heq =>
      simp [expect, Token.discr] at heq
      subst heq
      split
      · next e0 heqA =>
        split at heqA
        · cases heqA
        · split at heqA
          · cases heqA
          · next e1 hpe =>
            injection heqA with h0
            subst h0
            rw [hpe]
      · next args r2 heqA =>
        split at heqA
        · next => exact absurd rfl (hne _)
        · split at heqA
          · next arg r21 hpe =>
            injection heqA with h0
            cases h0
            rw [hpe]
          · cases heqA

/-- Witness for C4: the unknown-identifier error at `foo`, and a
one-argument echo call. -/
theorem c4_witness :
    parse 1 1 [.Ident "foo"] = .error ⟨"Unknown function or variable: foo", 1, 1⟩ ∧
    parse_call 1 1 "echo" [.LParen, .True, .RParen, .Semicolon] =
      .ok (.Call "echo" [.Literal (.Boolean true)], []) := by
  refine ⟨c4_statement_identifiers.1 1 1 "foo" [] (by decide), ?_⟩
  rw [c4_statement_identifiers.2.2.2 1 1 "echo" [.True, .RParen, .Semicolon]
    (by intro t ht; simp at ht)]
  simp [parse_expression, parse_primary_expression, parse_value, expect, Token.discr]

/-! ## C8: every parse error carries the initial position 1:1

`Parser::new` sets `current_line`/`current_column` to 1 and no parser
method ever assigns them; every error constructor reads them.  The
lemmas below track, function by function, that an error's position
fields equal the threaded `l`/`c` values. -/

theorem expect_error_pos {l c : Nat} {expected : Token} {toks : List Token} {e : ParseError}
    (h : expect l c expected toks = .error e) : e.line = l ∧ e.column = c := by
  cases toks with
  | nil =>
    simp only [expect] at h
    cases h
    exact ⟨rfl, rfl⟩
  | cons tok rest =>
    simp only [expect] at h
    split at h
    · cases h
    · cases h
      exact ⟨rfl, rfl⟩

theorem parse_type_error_pos {l c : Nat} {toks : List Token} {e : ParseError}
    (h : parse_type l c toks = .error e) : e.line = l ∧ e.column = c := by
  cases toks with
  | nil =>
    simp only [parse_type] at h
    cases h
    exact ⟨rfl, rfl⟩
  | cons tok rest =>
    cases tok <;> simp only [parse_type] at h <;> cases h <;> exact ⟨rfl, rfl⟩

theorem parse_value_error_pos {l c : Nat} {toks : List Token} {e : ParseError}
    (h : parse_value l c toks = .error e) : e.line = l ∧ e.column = c := by
  cases toks with
  | nil =>
    simp only [parse_value] at h
    cases h
    exact ⟨rfl, rfl⟩
  | cons tok rest =>
    cases tok <;> simp only [parse_value] at h
    case NumberLiteral s =>
      split at h <;> split at h <;> cases h <;> exact ⟨rfl, rfl⟩
    all_goals (cases h <;> exact ⟨rfl, rfl⟩)

theorem parse_primary_error_pos {l c : Nat} :
    ∀ {toks : List Token} {e : ParseError},
      parse_primary_expression l c toks = .error e → e.line = l ∧ e.column = c := by
  intro toks
  induction toks with
  | nil =>
    intro e h
    simp only [parse_primary_expression] at h
    cases h
    exact ⟨rfl, rfl⟩
  | cons tok rest ih =>
    intro e h
    cases tok <;> simp only [parse_primary_expression] at h
    case Ident name => cases h
    case LParen =>
      split at h
      · next e1 r1 h1 =>
        split at h
        · cases h
        · next h2 =>
          cases h
          exact expect_error_pos h2
      · next e1 h1 =>
        cases h
        exact ih h1
    all_goals
      first
      | (split at h
         · cases h
         · next e1 h1 =>
           cases h
           exact parse_value_error_pos h1)
      | (cases h <;> exact ⟨rfl, rfl⟩)

theorem parse_expression_error_pos {l c : Nat} {toks : List Token} {e : ParseError}
    (h : parse_expression l c toks = .error e) : e.line = l ∧ e.column = c :=
  parse_primary_error_pos h

theorem parse_call_error_pos {l c : Nat} {name : String} {toks : List Token} {e : ParseError}
    (h : parse_call l c name toks = .error e) : e.line = l ∧ e.column = c := by
  simp only [parse_call] at h
  split at h
  · next e1 h1 =>
    cases h
    exact expect_error_pos h1
  · next r1 h1 =>
    split at h
    · next e2 h2 =>
      cases h
      split at h2
      · cases h2
      · split at h2
        · cases h2
        · next e3 h3 =>
          injection h2 with h4
          subst h4
          exact parse_expression_error_pos h3
    · next args r2 h2 =>
      split at h
      · next e3 h3 =>
        cases h
        exact expect_error_pos h3
      · next r3 h3 =>
        split at h
        · next e4 h4 =>
          cases h
          exact expect_error_pos h4
        · cases h

theorem parse_declaration_error_pos {l c : Nat} {toks : List Token} {e : ParseError}
    (h : parse_declaration l c toks = .error e) : e.line = l ∧ e.column = c := by
  simp only [parse_declaration] at h
  split at h
  · next e1 h1 =>
    cases h
    exact parse_type_error_pos h1
  · next vt r1 h1 =>
    split at h
    · next name r2 =>
      split at h
      · next e2 h2 =>
        cases h
        exact expect_error_pos h2
      · next r3 h3 =>
        split at h
        · next e4 h4 =>
          cases h
          exact parse_value_error_pos h4
        · next v r4 h4 =>
          split at h
          · split at h
            · next e5 h5 =>
              cases h
              exact expect_error_pos h5
            · cases h
          · cases h
            exact ⟨rfl, rfl⟩
    · cases h
      exact ⟨rfl, rfl⟩
    · cases h
      exact ⟨rfl, rfl⟩

theorem parse_error_pos_aux :
    ∀ (n l c : Nat) (toks : List Token) (e : ParseError),
      toks.length ≤ n → parse l c toks = .error e → e.line = l ∧ e.column = c := by
  intro n
  induction n with
  | zero =>
    intro l c toks e hlen h
    have htoks : toks = [] := List.length_eq_zero.mp (Nat.le_zero.mp hlen)
    subst htoks
    rw [parse_eq] at h
    cases h
  | succ n ih =>
    intro l c toks e hlen h
    rw [parse_eq] at h
    split at h
    · cases h
    · cases h
    · cases h
      exact ⟨rfl, rfl⟩
    · next name rest =>
      split at h
      · split at h
        · next e1 h1 =>
          cases h
          exact parse_call_error_pos h1
        · next expr rest' h1 =>
          split at h
          · next e2 h2 =>
            cases h
            have hlt := parse_call_ok_lt h1
            simp only [List.length_cons] at hlen
            exact ih l c rest' e (by omega) h2
          · cases h
      · cases h
        exact ⟨rfl, rfl⟩
    · next rest =>
      split at h
      · next e1 h1 =>
        cases h
        exact parse_declaration_error_pos h1
      · next stmt rest' h1 =>
        split at h
        · next e2 h2 =>
          cases h
          have hlt := parse_declaration_ok_lt h1
          simp only [List.length_cons] at hlt hlen
          exact ih l c rest' e (by omega) h2
        · cases h
    · next rest =>
      split at h
      · next e1 h1 =>
        cases h
        exact parse_declaration_error_pos h1
      · next stmt rest' h1 =>
        split at h
        · next e2 h2 =>
          cases h
          have hlt := parse_declaration_ok_lt h1
          simp only [List.length_cons] at hlt hlen
          exact ih l c rest' e (by omega) h2
        · cases h
    · next rest =>
      split at h
      · next e1 h1 =>
        cases h
        exact parse_declaration_error_pos h1
      · next stmt rest' h1 =>
        split at h
        · next e2 h2 =>
          cases h
          have hlt := parse_declaration_ok_lt h1
          simp only [List.length_cons] at hlt hlen
          exact ih l c rest' e (by omega) h2
        · cases h
    · next rest =>
      split at h
      · next e1 h1 =>
        cases h
        exact parse_declaration_error_pos h1
      · next stmt rest' h1 =>
        split at h
        · next e2 h2 =>
          cases h
          have hlt := parse_declaration_ok_lt h1
          simp only [List.length_cons] at hlt hlen
          exact ih l c rest' e (by omega) h2
        · cases h
    · next tok rest =>
      cases h
      exact ⟨rfl, rfl⟩

/-- **C8.**  Every `ParseError` returned by `parse` carries exactly the
threaded `current_line`/`current_column` values — which are never
updated — so every error from the entry point (`Parser::new` +
`Parser::parse`) reports line 1, column 1 regardless of where the fault
occurred. -/
theorem c8_error_position_is_initial :
    (∀ (l c : Nat) (toks : List Token) (e : ParseError),
        parse l c toks = .error e → e.line = l ∧ e.column = c) ∧
    (∀ (toks : List Token) (e : ParseError),
        parse_program toks = .error e → e.line = 1 ∧ e.column = 1) :=
  ⟨fun l c toks e h => parse_error_pos_aux toks.length l c toks e (le_refl _) h,
   fun toks e h => parse_error_pos_aux toks.length 1 1 toks e (le_refl _) h⟩

/-- Witness for C8: a concrete erroneous token sequence reports 1:1. -/
theorem c8_witness :
    parse_program [.Ident "echo", .LParen, .RParen, .EOF] =
      .error ⟨"Expected Semicolon, got EOF", 1, 1⟩ ∧
    (ParseError.mk "Expected Semicolon, got EOF" 1 1).line = 1 ∧
    (ParseError.mk "Expected Semicolon, got EOF" 1 1).column = 1 := by
  have heval : parse_program [.Ident "echo", .LParen, .RParen, .EOF] =
      .error ⟨"Expected Semicolon, got EOF", 1, 1⟩ := by
    simp [parse_program, parse_eq, parse_call, expect, Token.discr, Token.debugFmt]
  exact ⟨heval, c8_error_position_is_initial.2 _ _ heval⟩

/-! ## C3: declaration type invariant -/

/-- A successful `parse_declaration` only emits declarations whose value
tag matches the declared type (the guard at parser.rs:240-252). -/
theorem parse_declaration_ok_typed {l c : Nat} {toks : List Token} {stmt : Stmt}
    {r : List Token} (h : parse_declaration l c toks = .ok (stmt, r)) :
    ∀ vt name v, stmt = .Declaration vt name v → type_matches vt v = true := by
  simp only [parse_declaration] at h
  split at h
  · cases h
  · next vt0 r1 h1 =>
    split at h
    · next name0 r2 =>
      split at h
      · cases h
      · next r3 h3 =>
        split at h
        · cases h
        · next v0 r4 h4 =>
          split at h
          · next htm =>
            split at h
            · cases h
            · next r5 h5 =>
              cases h
              intro vt name v heq
              injection heq with ha hb hc
              subst ha
              subst hc
              exact htm
          · cases h
    · cases h
    · cases h

theorem parse_ok_decls_typed_aux :
    ∀ (n l c : Nat) (toks : List Token) (prog : Program),
      toks.length ≤ n → parse l c toks = .ok prog →
      ∀ st ∈ prog.statements, ∀ vt name v, st = .Declaration vt name v →
        type_matches vt v = true := by
  intro n
  induction n with
  | zero =>
    intro l c toks prog hlen h st hst vt name v heq
    have htoks : toks = [] := List.length_eq_zero.mp (Nat.le_zero.mp hlen)
    subst htoks
    rw [parse_eq] at h
    cases h
    simp at hst
  | succ n ih =>
    intro l c toks prog hlen h st hst vt name v heq
    rw [parse_eq] at h
    split at h
    · cases h
      simp at hst
    · cases h
      simp at hst
    · cases h
    · next name0 rest =>
      split at h
      · split at h
        · cases h
        · next expr rest' h1 =>
          split at h
          · cases h
          · next prog' h2 =>
            cases h
            rcases List.mem_cons.mp hst with h3 | h3
            · subst h3
              cases heq
            · have hlt := parse_call_ok_lt h1
              simp only [List.length_cons] at hlen
              exact ih l c rest' prog' (by omega) h2 st h3 vt name v heq
      · cases h
    · next rest =>
      split at h
      · cases h
      · next stmt0 rest' h1 =>
        split at h
        · cases h
        · next prog' h2 =>
          cases h
          rcases List.mem_cons.mp hst with h3 | h3
          · subst h3
            exact parse_declaration_ok_typed h1 vt name v heq
          · have hlt := parse_declaration_ok_lt h1
            simp only [List.length_cons] at hlt hlen
            exact ih l c rest' prog' (by omega) h2 st h3 vt name v heq
    · next rest =>
      split at h
      · cases h
      · next stmt0 rest' h1 =>
        split at h
        · cases h
        · next prog' h2 =>
          cases h
          rcases List.mem_cons.mp hst with h3 | h3
          · subst h3
            exact parse_declaration_ok_typed h1 vt name v heq
          · have hlt := parse_declaration_ok_lt h1
            simp only [List.length_cons] at hlt hlen
            exact ih l c rest' prog' (by omega) h2 st h3 vt name v heq
    · next rest =>
      split at h
      · cases h
      · next stmt0 rest' h1 =>
        split at h
        · cases h
        · next prog' h2 =>
          cases h
          rcases List.mem_cons.mp hst with h3 | h3
          · subst h3
            exact parse_declaration_ok_typed h1 vt name v heq
          · have hlt := parse_declaration_ok_lt h1
            simp only [List.length_cons] at hlt hlen
            exact ih l c rest' prog' (by omega) h2 st h3 vt name v heq
    · next rest =>
      split at h
      · cases h
      · next stmt0 rest' h1 =>
        split at h
        · cases h
        · next prog' h2 =>
          cases h
          rcases List.mem_cons.mp hst with h3 | h3
          · subst h3
            exact parse_declaration_ok_typed h1 vt name v heq
          · have hlt := parse_declaration_ok_lt h1
            simp only [List.length_cons] at hlt hlen
            exact ih l c rest' prog' (by omega) h2 st h3 vt name v heq
    · next tok rest =>
      cases h

/-- **C3.**  On every successfully parsed program, each `Declaration`
statement's value tag matches its declared type (part 1); whenever the
declared type and the parsed literal's tag differ, `parse_declaration`
returns the type-mismatch error naming both the value and the declared
type — never coercing (part 2); in particular an integer literal under a
`Float` declaration is rejected (part 3). -/
theorem c3_declaration_type_invariant :
    (∀ (toks : List Token) (prog : Program),
        parse_program toks = .ok prog →
        ∀ st ∈ prog.statements, ∀ vt name v,
          st = .Declaration vt name v → type_matches vt v = true) ∧
    (∀ (l c : Nat) (kw : Token) (name : String) (lit : Token) (rest : List Token)
        (vt : VarType) (v : Value),
        parse_type l c (kw :: .Ident name :: .Equals :: lit :: .Semicolon :: rest) =
          .ok (vt, .Ident name :: .Equals :: lit :: .Semicolon :: rest) →
        parse_value l c (lit :: .Semicolon :: rest) = .ok (v, .Semicolon :: rest) →
        type_matches vt v = false →
        parse_declaration l c (kw :: .Ident name :: .Equals :: lit :: .Semicolon :: rest) =
          .error ⟨"Type mismatch: cannot assign " ++ value_debug_fmt v ++ " to " ++
            vartype_debug_fmt vt, l, c⟩) ∧
    parse_program [.FloatType, .Ident "x", .Equals, .NumberLiteral "1", .Semicolon, .EOF] =
      .error ⟨"Type mismatch: cannot assign Integer(1) to Float", 1, 1⟩ := by
  refine ⟨?_, ?_, ?_⟩
  · intro toks prog h st hst vt name v heq
    exact parse_ok_decls_typed_aux toks.length 1 1 toks prog (le_refl _) h st hst vt name v heq
  · intro l c kw name lit rest vt v hpt hpv htm
    simp only [parse_declaration, hpt]
    rw [show expect l c .Equals (.Equals :: lit :: .Semicolon :: rest) =
        .ok (lit :: .Semicolon :: rest) from by simp [expect, Token.discr]]
    simp only [hpv, htm]
    simp
  · have h1 : string_contains "1" '.' = false := by decide
    have h2 : rust_parse_i64 "1" = some 1 := by decide
    simp [parse_program, parse_eq, parse_declaration, parse_type, parse_value, expect,
      Token.discr, Token.debugFmt, type_matches, h1, h2, value_debug_fmt, vartype_debug_fmt]
    decide

/-- Witness for C3: the invariant read off a concrete parsed program,
and the mismatch error for a boolean declaration with an integer
literal. -/
theorem c3_witness :
    type_matches .Integer (.Integer 42) = true ∧
    parse_declaration 1 1 [.BooleanType, .Ident "b", .Equals, .NumberLiteral "1", .Semicolon] =
      .error ⟨"Type mismatch: cannot assign Integer(1) to Boolean", 1, 1⟩ := by
  constructor
  · have heval : parse_program [.IntegerType, .Ident "x", .Equals, .NumberLiteral "42",
        .Semicolon, .EOF] = .ok ⟨[.Declaration .Integer "x" (.Integer 42)]⟩ := by
      have h1 : string_contains "42" '.' = false := by decide
      have h2 : rust_parse_i64 "42" = some 42 := by decide
      simp [parse_program, parse_eq, parse_declaration, parse_type, parse_value, expect,
        Token.discr, type_matches, h1, h2]
    exact c3_declaration_type_invariant.1 _ _ heval
      (.Declaration .Integer "x" (.Integer 42)) (by simp) .Integer "x" (.Integer 42) rfl
  · have h1 : string_contains "1" '.' = false := by decide
    have h2 : rust_parse_i64 "1" = some 1 := by decide
    have happ := c3_declaration_type_invariant.2.1 1 1 .BooleanType "b" (.NumberLiteral "1")
      [] .Boolean (.Integer 1) (by simp [parse_type]) (by simp [parse_value, h1, h2])
      (by decide)
    rw [happ]
    simp only [Except.error.injEq, ParseError.mk.injEq]
    refine ⟨by decide, by trivial, by trivial⟩

end Quark
